import Mathlib

/-!
Shallow embedding of the aggregation / document-shaping logic of the
nutrition-data repository (files `azurite_function.py` and
`data_analysis.py`).

Records model one CSV row (columns `Diet_type`, `Cuisine_type`,
`Recipe_name`, `Protein(g)`, `Carbs(g)`, `Fat(g)`).  Numeric cells may be
missing (pandas `NaN`), modelled as `Option ℚ`.  The pandas primitives the
scripts rely on — `Series.unique` (first-seen distinct values),
`Series.mean`/`max`/`min` (skipping `NaN`), `Series.value_counts`
(descending by count, ties in first-seen order), `groupby` (sorted group
keys) — are embedded below, and the script functions
(`calculate_averages`, `store_in_nosql`, `query_nosql`,
`load_and_clean_data`, `add_new_metrics`) are translated on top of them.
-/

namespace Diets

/-- One row of the dataset. -/
structure Record where
  diet_type : String
  cuisine_type : String
  recipe_name : String
  protein : Option ℚ
  carbs : Option ℚ
  fat : Option ℚ
deriving DecidableEq

/-- Worker for `pdUnique`: keep the values not seen before. -/
def pdUniqueAux (seen : List String) : List String → List String
  | [] => []
  | x :: xs => if x ∈ seen then pdUniqueAux seen xs else x :: pdUniqueAux (x :: seen) xs

/-- pandas `Series.unique`: distinct values in first-seen order. -/
def pdUnique (l : List String) : List String := pdUniqueAux [] l

/-- pandas `Series.mean`: `NaN` (here `none`) when there is no value,
else the arithmetic mean. -/
def pdMean (vs : List ℚ) : Option ℚ :=
  if vs = [] then none else some (vs.sum / (vs.length : ℚ))

/-- pandas `Series.max` skipping `NaN`: `none` on the empty series. -/
def pdMax (vs : List ℚ) : Option ℚ := List.maximum vs

/-- pandas `Series.min` skipping `NaN`: `none` on the empty series. -/
def pdMin (vs : List ℚ) : Option ℚ := List.minimum vs

/-- The non-null values of one numeric column over a row list
(pandas aggregations skip `NaN` cells). -/
def colVals (f : Record → Option ℚ) (rs : List Record) : List ℚ :=
  rs.filterMap f

/-- The rows of one `Diet_type` group: `df[df["Diet_type"] == d]`. -/
def groupOf (rs : List Record) (d : String) : List Record :=
  rs.filter (fun r => r.diet_type = d)

/-- Strict lexicographic comparison of character lists by code point,
Python's string ordering. -/
def listLtb : List Char → List Char → Bool
  | [], [] => false
  | [], _ :: _ => true
  | _ :: _, [] => false
  | a :: as, b :: bs =>
    if a.toNat < b.toNat then true else if b.toNat < a.toNat then false else listLtb as bs

/-- Python `a < b` on strings. -/
def strLtb (a b : String) : Bool := listLtb a.data b.data

/-- Python `a <= b` on strings. -/
def strLeb (a b : String) : Bool := !strLtb b a

/-- Insert into a list sorted ascending in Python string order, keeping
the inserted element before later equal keys (pandas `groupby` sorts
keys). -/
def insAsc (x : String) : List String → List String
  | [] => [x]
  | y :: ys => if strLeb x y then x :: y :: ys else y :: insAsc x ys

/-- Ascending insertion sort on strings. -/
def sortAsc : List String → List String
  | [] => []
  | x :: xs => insAsc x (sortAsc xs)

/-- The group keys of `df.groupby("Diet_type")`: the distinct diet types
in ascending sorted order (pandas `groupby` defaults to `sort=True`). -/
def sortedKeys (rs : List Record) : List String :=
  sortAsc (pdUnique (rs.map (fun r => r.diet_type)))

/-- Per-group means of the three macronutrient columns. -/
structure MacroMeans where
  protein : Option ℚ
  carbs : Option ℚ
  fat : Option ℚ
deriving DecidableEq

/-- Model of `AzuriteFunction.calculate_averages` (and
`calculate_average_macros` of `data_analysis.py`):
`df.groupby("Diet_type")[["Protein(g)", "Carbs(g)", "Fat(g)"]].mean()`,
one row per diet type in sorted key order, each cell the `NaN`-skipping
column mean over that group. -/
def calculate_averages (rs : List Record) : List (String × MacroMeans) :=
  (sortedKeys rs).map (fun d =>
    (d, { protein := pdMean (colVals (fun r => r.protein) (groupOf rs d))
          carbs := pdMean (colVals (fun r => r.carbs) (groupOf rs d))
          fat := pdMean (colVals (fun r => r.fat) (groupOf rs d)) }))

/-- Insert into a list sorted descending by count, placing the inserted
pair before later pairs of equal count: elements it passes have strictly
greater count, which makes the sort stable. -/
def insDesc (x : String × Nat) : List (String × Nat) → List (String × Nat)
  | [] => [x]
  | y :: ys => if y.2 ≤ x.2 then x :: y :: ys else y :: insDesc x ys

/-- Stable insertion sort, descending by count. -/
def sortDesc : List (String × Nat) → List (String × Nat)
  | [] => []
  | x :: xs => insDesc x (sortDesc xs)

/-- pandas `Series.value_counts`: each distinct value with its number of
occurrences, ordered by descending count, equal counts in first-seen
order. -/
def value_counts (cs : List String) : List (String × Nat) :=
  sortDesc ((pdUnique cs).map (fun c => (c, cs.count c)))

/-- One entry of the `detailed_statistics.json` dictionary. -/
structure DietStats where
  count : Nat
  avg_protein : Option ℚ
  avg_carbs : Option ℚ
  avg_fat : Option ℚ
  max_protein : Option ℚ
  min_protein : Option ℚ
  top_cuisines : List (String × Nat)
deriving DecidableEq

/-- Step 2 of `AzuriteFunction.store_in_nosql`: one `DietStats` per
diet type, keyed in the first-seen order of `df["Diet_type"].unique()`;
`top_cuisines` is `value_counts().head(3)`. -/
def detailed_stats (rs : List Record) : List (String × DietStats) :=
  (pdUnique (rs.map (fun r => r.diet_type))).map (fun d =>
    (d, { count := (groupOf rs d).length
          avg_protein := pdMean (colVals (fun r => r.protein) (groupOf rs d))
          avg_carbs := pdMean (colVals (fun r => r.carbs) (groupOf rs d))
          avg_fat := pdMean (colVals (fun r => r.fat) (groupOf rs d))
          max_protein := pdMax (colVals (fun r => r.protein) (groupOf rs d))
          min_protein := pdMin (colVals (fun r => r.protein) (groupOf rs d))
          top_cuisines :=
            (value_counts ((groupOf rs d).map (fun r => r.cuisine_type))).take 3 }))

/-- Python `diet_type.lower().replace(" ", "_")`. -/
def doc_id (s : String) : String :=
  String.mk (s.data.map (fun c => if Char.toLower c = ' ' then '_' else Char.toLower c))

/-- One entry of `diet_documents.json`.  Timestamps are modelled as an
abstract `Nat` token handed to the builder. -/
structure Document where
  _id : String
  diet_type : String
  protein_g : Option ℚ
  carbs_g : Option ℚ
  fat_g : Option ℚ
  recipe_count : Nat
  cuisines : List (String × Nat)
  created_at : Nat
  updated_at : Nat
deriving DecidableEq

/-- Step 4 of `AzuriteFunction.store_in_nosql`: one document per row of
`avg_macros` (so per group key, in the sorted key order of the groupby),
with `cuisines = value_counts().head(5)` over that group and both
timestamps set to the current time `now`. -/
def store_documents (now : Nat) (avg : List (String × MacroMeans)) (rs : List Record) :
    List Document :=
  avg.map (fun p =>
    { _id := doc_id p.1
      diet_type := p.1
      protein_g := p.2.protein
      carbs_g := p.2.carbs
      fat_g := p.2.fat
      recipe_count := (groupOf rs p.1).length
      cuisines := (value_counts ((groupOf rs p.1).map (fun r => r.cuisine_type))).take 5
      created_at := now
      updated_at := now })

/-- Python `str.lower()` (ASCII case fold suffices for the data at hand). -/
def pyLower (s : String) : String := String.mk (s.data.map Char.toLower)

/-- The filter comprehension inside `query_nosql`:
`[doc for doc in documents if doc["diet_type"].lower() == diet_type.lower()]`. -/
def query_filter (docs : List Document) (dt : String) : List Document :=
  docs.filter (fun doc => pyLower doc.diet_type = pyLower dt)

/-- Return value of `AzuriteFunction.query_nosql`.  The store argument is
`none` when `diet_documents.json` does not exist: that branch catches
`FileNotFoundError`, prints a message and returns `None`.  Otherwise the
function returns the full `documents` list — the filtered `result` is
only printed, never returned. -/
def query_nosql (store : Option (List Document)) (dt : Option String) :
    Option (List Document) :=
  match store, dt with
  | none, _ => none
  | some documents, _ => some documents

/-- The query result `query_nosql` displays: the case-insensitively
filtered list when the `diet_type` argument is truthy (`if diet_type:`),
all documents otherwise; `none` when the store file is absent. -/
def query_printed (store : Option (List Document)) (dt : Option String) :
    Option (List Document) :=
  match store with
  | none => none
  | some documents =>
    match dt with
    | some s => if s ≠ "" then some (query_filter documents s) else some documents
    | none => some documents

/-- pandas `fillna(column mean)` on one cell: a present value is kept, a missing
one becomes the column mean — which is itself missing when the whole
column is null, in which case `fillna` leaves `NaN` in place. -/
def fillCell (m : Option ℚ) (v : Option ℚ) : Option ℚ :=
  match v with
  | some q => some q
  | none => m

/-- The cleaning step of `load_and_clean_data` in `data_analysis.py`:
`df[col].fillna(df[col].mean(), inplace=True)` for the three numeric
columns, the mean taken over the whole dataset. -/
def load_and_clean_data (rs : List Record) : List Record :=
  let mp := pdMean (colVals (fun r => r.protein) rs)
  let mc := pdMean (colVals (fun r => r.carbs) rs)
  let mf := pdMean (colVals (fun r => r.fat) rs)
  rs.map (fun r =>
    { r with protein := fillCell mp r.protein
             carbs := fillCell mc r.carbs
             fat := fillCell mf r.fat })

/-- numpy `np.where(df["Carbs(g)"] != 0, df["Protein(g)"] / df["Carbs(g)"], np.nan)`
for one row (`add_new_metrics` in `data_analysis.py`).  A `NaN` cell
compares `!= 0` as true in numpy, but a quotient with a `NaN` operand is
again `NaN`, so a `none` operand — like a zero denominator — yields
`none`. -/
def protein_to_carbs (r : Record) : Option ℚ :=
  match r.carbs with
  | none => none
  | some c =>
    if c ≠ 0 then
      match r.protein with
      | none => none
      | some p => some (p / c)
    else none

/-- numpy `np.where(df["Fat(g)"] != 0, df["Carbs(g)"] / df["Fat(g)"], np.nan)`
for one row (`add_new_metrics` in `data_analysis.py`). -/
def carbs_to_fat (r : Record) : Option ℚ :=
  match r.fat with
  | none => none
  | some f =>
    if f ≠ 0 then
      match r.carbs with
      | none => none
      | some c => some (c / f)
    else none

/-- The timestamp-free content of a `Document`. -/
structure DocContent where
  _id : String
  diet_type : String
  protein_g : Option ℚ
  carbs_g : Option ℚ
  fat_g : Option ℚ
  recipe_count : Nat
  cuisines : List (String × Nat)
deriving DecidableEq

/-- Forget the `created_at` / `updated_at` fields. -/
def stripDoc (d : Document) : DocContent :=
  { _id := d._id
    diet_type := d.diet_type
    protein_g := d.protein_g
    carbs_g := d.carbs_g
    fat_g := d.fat_g
    recipe_count := d.recipe_count
    cuisines := d.cuisines }

/-- One full run of `process_data`'s computation (reading and persistence
aside): the means, the detailed statistics and the documents built from
the record set at time `now`. -/
def pipeline (now : Nat) (rs : List Record) :
    List (String × MacroMeans) × List (String × DietStats) × List Document :=
  (calculate_averages rs, detailed_stats rs, store_documents now (calculate_averages rs) rs)

/-- A concrete row, for concrete evaluations. -/
def mkRec (d c : String) (p cb f : Option ℚ) : Record :=
  { diet_type := d, cuisine_type := c, recipe_name := "r", protein := p, carbs := cb, fat := f }

/-- The record set of the spec's worked scenario (§8). -/
def rsEx : List Record :=
  [ mkRec "paleo" "american" (some 30) (some 5) (some 10)
  , mkRec "paleo" "american" (some 20) (some 0) (some 10)
  , mkRec "vegan" "asian" (some 10) (some 40) (some 2) ]

/-- A record set with one missing protein cell. -/
def rsNull : List Record :=
  [ mkRec "keto" "french" (some 4) (some 2) (some 1)
  , mkRec "keto" "french" none (some 6) (some 3) ]

/-- The means row produced for `paleo` on the scenario set (protein 25,
carbs 5/2, fat 10). -/
def mPaleoEx : MacroMeans :=
  { protein := pdMean (colVals (fun r => r.protein) (groupOf rsEx "paleo"))
    carbs := pdMean (colVals (fun r => r.carbs) (groupOf rsEx "paleo"))
    fat := pdMean (colVals (fun r => r.fat) (groupOf rsEx "paleo")) }

/-- The detailed-statistics entry produced for `paleo` on the scenario
set. -/
def statsPaleoEx : DietStats :=
  { count := (groupOf rsEx "paleo").length
    avg_protein := pdMean (colVals (fun r => r.protein) (groupOf rsEx "paleo"))
    avg_carbs := pdMean (colVals (fun r => r.carbs) (groupOf rsEx "paleo"))
    avg_fat := pdMean (colVals (fun r => r.fat) (groupOf rsEx "paleo"))
    max_protein := pdMax (colVals (fun r => r.protein) (groupOf rsEx "paleo"))
    min_protein := pdMin (colVals (fun r => r.protein) (groupOf rsEx "paleo"))
    top_cuisines :=
      (value_counts ((groupOf rsEx "paleo").map (fun r => r.cuisine_type))).take 3 }

/-- The document produced for `paleo` on the scenario set at time 7. -/
def docPaleoEx : Document :=
  { _id := doc_id "paleo", diet_type := "paleo", protein_g := mPaleoEx.protein
    carbs_g := mPaleoEx.carbs, fat_g := mPaleoEx.fat
    recipe_count := (groupOf rsEx "paleo").length
    cuisines := (value_counts ((groupOf rsEx "paleo").map (fun r => r.cuisine_type))).take 5
    created_at := 7, updated_at := 7 }

/-- A persisted document for `paleo`, as the query demo would find it. -/
def qdocPaleo : Document :=
  { _id := "paleo", diet_type := "paleo", protein_g := some 25, carbs_g := some 3
    fat_g := some 10, recipe_count := 2, cuisines := [("american", 2)]
    created_at := 0, updated_at := 0 }

/-- A persisted document for `vegan`. -/
def qdocVegan : Document :=
  { _id := "vegan", diet_type := "vegan", protein_g := some 10, carbs_g := some 40
    fat_g := some 2, recipe_count := 1, cuisines := [("asian", 1)]
    created_at := 0, updated_at := 0 }

/-- The second record of `rsNull` after cleaning: its missing protein
cell has become the whole-column mean. -/
def rNullClean : Record :=
  { diet_type := "keto", cuisine_type := "french", recipe_name := "r"
    protein := pdMean (colVals (fun r => r.protein) rsNull)
    carbs := some 6, fat := some 3 }

/-!  Theorems.  First, facts about the embedded pandas primitives. -/

/-- Function `pdUniqueAux` keeps exactly the not-yet-seen values of the input. -/
theorem mem_pdUniqueAux (a : String) (seen l : List String) :
    a ∈ pdUniqueAux seen l ↔ a ∈ l ∧ a ∉ seen := by
  induction l generalizing seen with
  | nil => simp [pdUniqueAux]
  | cons x xs ih =>
    rw [pdUniqueAux]
    by_cases hx : x ∈ seen
    · rw [if_pos hx, ih]
      simp only [List.mem_cons]
      constructor
      · rintro ⟨h1, h2⟩
        exact ⟨Or.inr h1, h2⟩
      · rintro ⟨h1 | h1, h2⟩
        · exact absurd (h1 ▸ hx) h2
        · exact ⟨h1, h2⟩
    · rw [if_neg hx]
      simp only [List.mem_cons, ih, List.mem_cons, not_or]
      constructor
      · rintro (rfl | ⟨h1, h2, h3⟩)
        · exact ⟨Or.inl rfl, hx⟩
        · exact ⟨Or.inr h1, h3⟩
      · rintro ⟨h1 | h1, h2⟩
        · exact Or.inl h1
        · by_cases hax : a = x
          · exact Or.inl hax
          · exact Or.inr ⟨h1, hax, h2⟩

/-- Function `pdUnique` keeps exactly the values of the input. -/
theorem mem_pdUnique (a : String) (l : List String) : a ∈ pdUnique l ↔ a ∈ l := by
  rw [pdUnique, mem_pdUniqueAux]
  simp

/-- Function `pdUniqueAux` yields no duplicates. -/
theorem pdUniqueAux_nodup (seen l : List String) : (pdUniqueAux seen l).Nodup := by
  induction l generalizing seen with
  | nil => simp [pdUniqueAux]
  | cons x xs ih =>
    rw [pdUniqueAux]
    by_cases hx : x ∈ seen
    · rw [if_pos hx]
      exact ih seen
    · rw [if_neg hx]
      refine List.nodup_cons.mpr ⟨fun hmem => ?_, ih (x :: seen)⟩
      exact ((mem_pdUniqueAux x (x :: seen) xs).mp hmem).2 (List.mem_cons_self x seen)

/-- Function `pdUnique` yields no duplicates. -/
theorem pdUnique_nodup (l : List String) : (pdUnique l).Nodup := pdUniqueAux_nodup [] l

/-- Removing the occurrences of a fresh value `x` from the unseen part of
a list shortens it by exactly the number of those occurrences. -/
theorem count_split (x : String) (seen : List String) (hx : x ∉ seen) (xs : List String) :
    xs.count x + (xs.filter (fun y => y ∉ x :: seen)).length
      = (xs.filter (fun y => y ∉ seen)).length := by
  induction xs with
  | nil => rfl
  | cons y ys ih =>
    by_cases h1 : y = x
    · subst h1
      rw [List.count_cons_self, List.filter_cons_of_neg (by simp),
        List.filter_cons_of_pos (by simp [hx]), List.length_cons]
      omega
    · rw [List.count_cons_of_ne (fun h => h1 h.symm)]
      by_cases h2 : y ∈ seen
      · rw [List.filter_cons_of_neg (by simp [h2]), List.filter_cons_of_neg (by simp [h2])]
        exact ih
      · rw [List.filter_cons_of_pos (by simp [h1, h2]),
          List.filter_cons_of_pos (by simp [h2]), List.length_cons, List.length_cons]
        omega

/-- Summing, over the distinct unseen values, the number of occurrences
of each gives the number of unseen elements. -/
theorem sum_count_pdUniqueAux (l : List String) : ∀ seen,
    ((pdUniqueAux seen l).map (fun x => l.count x)).sum
      = (l.filter (fun y => y ∉ seen)).length := by
  induction l with
  | nil => intro seen; rfl
  | cons x xs ih =>
    intro seen
    rw [pdUniqueAux]
    by_cases hx : x ∈ seen
    · rw [if_pos hx]
      have hmap : (pdUniqueAux seen xs).map (fun y => (x :: xs).count y)
          = (pdUniqueAux seen xs).map (fun y => xs.count y) := by
        refine List.map_congr_left fun y hy => ?_
        have h2 := (mem_pdUniqueAux y seen xs).mp hy
        exact List.count_cons_of_ne (fun h => h2.2 (by rw [h]; exact hx)) xs
      rw [hmap, ih seen, List.filter_cons_of_neg (by simp [hx])]
    · rw [if_neg hx, List.map_cons, List.sum_cons]
      have hmap : (pdUniqueAux (x :: seen) xs).map (fun y => (x :: xs).count y)
          = (pdUniqueAux (x :: seen) xs).map (fun y => xs.count y) := by
        refine List.map_congr_left fun y hy => ?_
        have h2 := (mem_pdUniqueAux y (x :: seen) xs).mp hy
        exact List.count_cons_of_ne (fun h => h2.2 (by rw [h]; exact List.mem_cons_self x seen)) xs
      rw [hmap, ih (x :: seen), List.count_cons_self,
        List.filter_cons_of_pos (by simp [hx]), List.length_cons]
      have := count_split x seen hx xs
      omega

/-- Summing, over the distinct values, the number of occurrences of each
gives the length of the list. -/
theorem sum_count_pdUnique (l : List String) :
    ((pdUnique l).map (fun x => l.count x)).sum = l.length := by
  have h := sum_count_pdUniqueAux l []
  simpa [pdUnique] using h

/-- The rows of the `d` group are exactly the occurrences of `d` in the
`Diet_type` column. -/
theorem length_groupOf_eq_count (rs : List Record) (d : String) :
    (groupOf rs d).length = (rs.map (fun r => r.diet_type)).count d := by
  induction rs with
  | nil => rfl
  | cons r rs ih =>
    simp only [groupOf, List.map_cons] at ih ⊢
    by_cases h : r.diet_type = d
    · rw [List.filter_cons_of_pos (by simp [h]), List.length_cons, h,
        List.count_cons_self, ih]
    · rw [List.filter_cons_of_neg (by simp [h]),
        List.count_cons_of_ne (fun hxy => h hxy.symm), ih]

/-- C3: the `count` fields of the detailed statistics, summed over all
distinct diet types, equal the total number of records. -/
theorem detailed_stats_counts_sum (rs : List Record) :
    ((detailed_stats rs).map (fun p => p.2.count)).sum = rs.length := by
  have h1 : (detailed_stats rs).map (fun p => p.2.count)
      = (pdUnique (rs.map (fun r => r.diet_type))).map (fun d => (groupOf rs d).length) := by
    simp [detailed_stats, List.map_map]
  have h2 : (pdUnique (rs.map (fun r => r.diet_type))).map (fun d => (groupOf rs d).length)
      = (pdUnique (rs.map (fun r => r.diet_type))).map
          (fun d => (rs.map (fun r => r.diet_type)).count d) :=
    List.map_congr_left (fun d _ => length_groupOf_eq_count rs d)
  rw [h1, h2, sum_count_pdUnique, List.length_map]

/-- Function `pdMean` is undefined exactly on the empty value list. -/
theorem pdMean_eq_none_iff (vs : List ℚ) : pdMean vs = none ↔ vs = [] := by
  unfold pdMean
  split <;> simp_all

/-- A defined `pdMean` is the arithmetic mean: `μ · n = Σ`. -/
theorem pdMean_some_mul (vs : List ℚ) (μ : ℚ) (h : pdMean vs = some μ) :
    μ * (vs.length : ℚ) = vs.sum := by
  unfold pdMean at h
  split at h
  · cases h
  · rename_i hne
    have hlen : (vs.length : ℚ) ≠ 0 := by
      simpa [Nat.cast_ne_zero] using fun h0 => hne (List.length_eq_zero.mp h0)
    obtain rfl : vs.sum / (vs.length : ℚ) = μ := by injection h
    exact div_mul_cancel₀ _ hlen

/-- C2: `calculate_averages` partitions the records by diet type; each
group mean is taken over only the non-null cells of that column in the
group (`none` exactly when the group has no non-null cell for it, instead
of a crash), and a defined mean `μ` satisfies `μ · n = Σ` over those
cells, i.e. nulls are excluded from both the sum and the count. -/
theorem calculate_averages_mean_spec (rs : List Record) (d : String) (m : MacroMeans)
    (hm : (d, m) ∈ calculate_averages rs) :
    (∀ r ∈ groupOf rs d, r.diet_type = d) ∧
    (∀ r ∈ rs, r.diet_type = d → r ∈ groupOf rs d) ∧
    (m.protein = none ↔ colVals (fun r => r.protein) (groupOf rs d) = []) ∧
    (∀ μ : ℚ, m.protein = some μ →
      μ * ((colVals (fun r => r.protein) (groupOf rs d)).length : ℚ)
        = (colVals (fun r => r.protein) (groupOf rs d)).sum) ∧
    (m.carbs = none ↔ colVals (fun r => r.carbs) (groupOf rs d) = []) ∧
    (∀ μ : ℚ, m.carbs = some μ →
      μ * ((colVals (fun r => r.carbs) (groupOf rs d)).length : ℚ)
        = (colVals (fun r => r.carbs) (groupOf rs d)).sum) ∧
    (m.fat = none ↔ colVals (fun r => r.fat) (groupOf rs d) = []) ∧
    (∀ μ : ℚ, m.fat = some μ →
      μ * ((colVals (fun r => r.fat) (groupOf rs d)).length : ℚ)
        = (colVals (fun r => r.fat) (groupOf rs d)).sum) := by
  obtain ⟨d', _hd', heq⟩ := List.mem_map.mp hm
  injection heq with h1 h2
  subst h1
  subst h2
  refine ⟨fun r hr => ?_, fun r hr hd => ?_, pdMean_eq_none_iff _,
    fun μ hμ => pdMean_some_mul _ μ hμ, pdMean_eq_none_iff _,
    fun μ hμ => pdMean_some_mul _ μ hμ, pdMean_eq_none_iff _,
    fun μ hμ => pdMean_some_mul _ μ hμ⟩
  · simpa using (List.mem_filter.mp hr).2
  · exact List.mem_filter.mpr ⟨hr, by simp [hd]⟩

/-- C2, witnessed on the spec's scenario record set at the `paleo`
group. -/
theorem calculate_averages_mean_spec_witness :
    mPaleoEx.protein = none ↔ colVals (fun r => r.protein) (groupOf rsEx "paleo") = [] :=
  (calculate_averages_mean_spec rsEx "paleo" mPaleoEx
    (List.mem_map_of_mem _ (by decide : "paleo" ∈ sortedKeys rsEx))).2.2.1

/-- C4: on a record with defined macronutrient cells, `add_new_metrics`
yields `protein_to_carbs = protein / carbs` when `carbs ≠ 0` and an
undefined value (`none` — not an error, not an infinity) exactly when
`carbs = 0`; likewise `carbs_to_fat = carbs / fat` with `none` exactly
when `fat = 0`. -/
theorem deriveRatios_spec (r : Record) (p c f : ℚ)
    (hp : r.protein = some p) (hc : r.carbs = some c) (hf : r.fat = some f) :
    (protein_to_carbs r = none ↔ c = 0) ∧
    (c ≠ 0 → protein_to_carbs r = some (p / c)) ∧
    (carbs_to_fat r = none ↔ f = 0) ∧
    (f ≠ 0 → carbs_to_fat r = some (c / f)) := by
  by_cases h : c = 0 <;> by_cases h2 : f = 0 <;>
    simp [protein_to_carbs, carbs_to_fat, hp, hc, hf, h, h2]

/-- C4, witnessed on the scenario's second record (carbs 0, fat 10). -/
theorem deriveRatios_spec_witness :
    (protein_to_carbs (mkRec "paleo" "american" (some 20) (some 0) (some 10)) = none
      ↔ (0 : ℚ) = 0) ∧
    ((0 : ℚ) ≠ 0 →
      protein_to_carbs (mkRec "paleo" "american" (some 20) (some 0) (some 10))
        = some (20 / 0)) ∧
    (carbs_to_fat (mkRec "paleo" "american" (some 20) (some 0) (some 10)) = none
      ↔ (10 : ℚ) = 0) ∧
    ((10 : ℚ) ≠ 0 →
      carbs_to_fat (mkRec "paleo" "american" (some 20) (some 0) (some 10))
        = some (0 / 10)) :=
  deriveRatios_spec _ 20 0 10 rfl rfl rfl

/-- C7: a query against an absent store (nothing persisted yet) yields
the `NotFound` sentinel `none` instead of an uncaught error, and is
distinguished from a successful query with zero matches, which yields
`some []`. -/
theorem query_notfound_spec (dt : Option String) (docs : List Document) :
    query_nosql none dt = none ∧
    query_printed none dt = none ∧
    query_nosql (some docs) dt ≠ none ∧
    query_printed (some docs) dt ≠ none ∧
    query_printed (some []) (some "keto") = some [] ∧
    query_printed (some []) (some "keto") ≠ query_printed none (some "keto") := by
  refine ⟨rfl, rfl, by simp [query_nosql], ?_, rfl, by simp [query_printed, query_filter]⟩
  cases dt with
  | none => simp [query_printed]
  | some s => by_cases h : s = "" <;> simp [query_printed, h]

/-- C8: the pipeline is a pure function of the record set — two runs at
different times agree on the means, the detailed statistics and the
timestamp-stripped document content. -/
theorem pipeline_deterministic (t1 t2 : Nat) (rs : List Record) :
    (pipeline t1 rs).1 = (pipeline t2 rs).1 ∧
    (pipeline t1 rs).2.1 = (pipeline t2 rs).2.1 ∧
    ((pipeline t1 rs).2.2).map stripDoc = ((pipeline t2 rs).2.2).map stripDoc := by
  refine ⟨rfl, rfl, ?_⟩
  simp only [pipeline, store_documents, List.map_map]
  rfl

/-- C6: in every diet-type group of the detailed statistics whose mean,
minimum and maximum protein are all defined, the mean protein lies in the
closed interval between the minimum and the maximum. -/
theorem mean_in_range_spec (rs : List Record) (d : String) (stats : DietStats)
    (hs : (d, stats) ∈ detailed_stats rs) (μ lo hi : ℚ)
    (hμ : stats.avg_protein = some μ) (hlo : stats.min_protein = some lo)
    (hhi : stats.max_protein = some hi) :
    lo ≤ μ ∧ μ ≤ hi := by
  obtain ⟨d', _hd', heq⟩ := List.mem_map.mp hs
  injection heq with h1 h2
  subst h1
  rw [← h2] at hμ hlo hhi
  replace hμ : pdMean (colVals (fun r => r.protein) (groupOf rs d')) = some μ := hμ
  replace hlo : List.minimum (colVals (fun r => r.protein) (groupOf rs d')) = some lo := hlo
  replace hhi : List.maximum (colVals (fun r => r.protein) (groupOf rs d')) = some hi := hhi
  set vs := colVals (fun r => r.protein) (groupOf rs d') with hvsdef
  rw [pdMean] at hμ
  split at hμ
  · exact absurd hμ (by simp)
  · rename_i hne
    have hμval : vs.sum / (vs.length : ℚ) = μ := by injection hμ
    have hmax := List.maximum_eq_coe_iff.mp hhi
    have hmin := List.minimum_eq_coe_iff.mp hlo
    have hlenpos : (0 : ℚ) < (vs.length : ℚ) := by
      have h0 : 0 < vs.length := List.length_pos.mpr hne
      exact_mod_cast h0
    constructor
    · have hsum : vs.length • lo ≤ vs.sum := List.card_nsmul_le_sum vs lo hmin.2
      rw [nsmul_eq_mul] at hsum
      rw [← hμval, le_div_iff₀ hlenpos, mul_comm]
      exact hsum
    · have hsum : vs.sum ≤ vs.length • hi := List.sum_le_card_nsmul vs hi hmax.2
      rw [nsmul_eq_mul] at hsum
      rw [← hμval, div_le_iff₀ hlenpos, mul_comm]
      exact hsum

/-- C6, witnessed on the scenario set's `paleo` group: 20 ≤ 25 ≤ 30. -/
theorem mean_in_range_spec_witness : (20 : ℚ) ≤ 25 ∧ (25 : ℚ) ≤ 30 :=
  mean_in_range_spec rsEx "paleo" statsPaleoEx
    (List.mem_map_of_mem _
      (by decide : "paleo" ∈ pdUnique (rsEx.map (fun r => r.diet_type))))
    25 20 30
    (by norm_num +decide [statsPaleoEx, pdMean, colVals, groupOf, rsEx, mkRec,
      List.filterMap_cons, List.sum_cons, List.sum_nil])
    (by simp +decide [statsPaleoEx, pdMin, colVals, groupOf, rsEx, mkRec,
      List.filterMap_cons, List.minimum])
    (by simp +decide [statsPaleoEx, pdMax, colVals, groupOf, rsEx, mkRec,
      List.filterMap_cons, List.maximum])

/-- C1 refuted as stated: with documents persisted for `paleo` and
`vegan`, a query filtered by `"keto"` returns the full document list,
not the (empty) case-insensitively matching subsequence — inside
`query_nosql` the filtered `result` is only printed, while the function
returns `documents`. -/
theorem queryDocuments_claim_counterexample :
    query_nosql (some [qdocPaleo, qdocVegan]) (some "keto")
      = some [qdocPaleo, qdocVegan] ∧
    query_filter [qdocPaleo, qdocVegan] "keto" = [] ∧
    query_nosql (some [qdocPaleo, qdocVegan]) (some "keto")
      ≠ some (query_filter [qdocPaleo, qdocVegan] "keto") := by
  refine ⟨rfl, by decide, by decide⟩

/-- C1 amended: for a truthy filter the case-insensitively matching
subsequence is computed and displayed — empty when nothing matches, not
an error — while the function's return value is the full document list;
with no filter all documents are returned unchanged in order. -/
theorem queryDocuments_amended (docs : List Document) (dt : String) (hdt : dt ≠ "") :
    query_printed (some docs) (some dt)
      = some (docs.filter (fun doc => pyLower doc.diet_type = pyLower dt)) ∧
    query_nosql (some docs) (some dt) = some docs ∧
    query_printed (some docs) none = some docs ∧
    query_nosql (some docs) none = some docs ∧
    query_printed (some []) (some dt) = some [] := by
  refine ⟨?_, rfl, rfl, rfl, ?_⟩
  · simp [query_printed, query_filter, hdt]
  · simp [query_printed, query_filter, hdt]

/-- C1 amended, witnessed: the demo query for `"keto"` over the two
persisted documents returns both of them. -/
theorem queryDocuments_amended_witness :
    query_nosql (some [qdocPaleo, qdocVegan]) (some "keto")
      = some [qdocPaleo, qdocVegan] :=
  (queryDocuments_amended [qdocPaleo, qdocVegan] "keto" (by decide)).2.1

/-- In a zip of a list with its own image under `f`, the second component
is `f` of the first. -/
theorem zip_map_self (f : α → β) (l : List α) (a : α) (b : β)
    (h : (a, b) ∈ l.zip (l.map f)) : b = f a := by
  induction l with
  | nil => cases h
  | cons x xs ih =>
    rw [List.map_cons, List.zip_cons_cons] at h
    rcases List.mem_cons.mp h with h1 | h1
    · injection h1 with e1 e2
      rw [e1]
      exact e2
    · exact ih h1

/-- C9: `load_and_clean_data` replaces every missing numeric cell by the
arithmetic mean of its column over the whole dataset (not per diet
group), keeps present cells, and leaves no missing cell in a column that
has at least one non-null input value. -/
theorem load_and_clean_data_spec (rs : List Record) (r r' : Record)
    (hmem : (r, r') ∈ rs.zip (load_and_clean_data rs)) :
    (load_and_clean_data rs).length = rs.length ∧
    (r.protein = none → r'.protein = pdMean (colVals (fun x => x.protein) rs)) ∧
    (∀ q : ℚ, r.protein = some q → r'.protein = some q) ∧
    (colVals (fun x => x.protein) rs ≠ [] → r'.protein.isSome) ∧
    (r.carbs = none → r'.carbs = pdMean (colVals (fun x => x.carbs) rs)) ∧
    (∀ q : ℚ, r.carbs = some q → r'.carbs = some q) ∧
    (colVals (fun x => x.carbs) rs ≠ [] → r'.carbs.isSome) ∧
    (r.fat = none → r'.fat = pdMean (colVals (fun x => x.fat) rs)) ∧
    (∀ q : ℚ, r.fat = some q → r'.fat = some q) ∧
    (colVals (fun x => x.fat) rs ≠ [] → r'.fat.isSome) := by
  have hr' : r' = { r with
      protein := fillCell (pdMean (colVals (fun x => x.protein) rs)) r.protein
      carbs := fillCell (pdMean (colVals (fun x => x.carbs) rs)) r.carbs
      fat := fillCell (pdMean (colVals (fun x => x.fat) rs)) r.fat } :=
    zip_map_self _ rs r r' hmem
  subst hr'
  refine ⟨by simp [load_and_clean_data], ?_, ?_, ?_, ?_, ?_, ?_, ?_, ?_, ?_⟩
  · intro h
    simp [h, fillCell]
  · intro q hq
    simp [hq, fillCell]
  · intro hne
    cases hp : r.protein with
    | none => simp [hp, fillCell, pdMean, hne]
    | some q => simp [hp, fillCell]
  · intro h
    simp [h, fillCell]
  · intro q hq
    simp [hq, fillCell]
  · intro hne
    cases hp : r.carbs with
    | none => simp [hp, fillCell, pdMean, hne]
    | some q => simp [hp, fillCell]
  · intro h
    simp [h, fillCell]
  · intro q hq
    simp [hq, fillCell]
  · intro hne
    cases hp : r.fat with
    | none => simp [hp, fillCell, pdMean, hne]
    | some q => simp [hp, fillCell]

/-- C9, witnessed on `rsNull`, whose second record misses its protein
cell. -/
theorem load_and_clean_data_spec_witness :
    (load_and_clean_data rsNull).length = rsNull.length :=
  (load_and_clean_data_spec rsNull (mkRec "keto" "french" none (some 6) (some 3))
    rNullClean
    (List.mem_cons_of_mem _ (List.mem_cons_self _ _))).1

/-- Lexicographic comparison is asymmetric. -/
theorem listLtb_asymm (a : List Char) : ∀ (b : List Char),
    listLtb a b = true → listLtb b a = false := by
  induction a with
  | nil =>
    intro b h
    cases b with
    | nil => simp [listLtb] at h
    | cons y ys => simp [listLtb]
  | cons x xs ih =>
    intro b h
    cases b with
    | nil => simp [listLtb] at h
    | cons y ys =>
      rw [listLtb] at h ⊢
      by_cases h1 : x.toNat < y.toNat
      · rw [if_neg (by omega), if_pos h1]
      · rw [if_neg h1] at h
        by_cases h2 : y.toNat < x.toNat
        · rw [if_pos h2] at h
          cases h
        · rw [if_neg h2] at h
          rw [if_neg h2, if_neg h1]
          exact ih ys h

/-- The negation of lexicographic `<` is transitive. -/
theorem listLtb_le_trans (a : List Char) : ∀ (b c : List Char),
    listLtb b a = false → listLtb c b = false → listLtb c a = false := by
  induction a with
  | nil =>
    intro b c _ _
    cases c <;> simp [listLtb]
  | cons x xs ih =>
    intro b c hba hcb
    cases b with
    | nil => simp [listLtb] at hba
    | cons y ys =>
      cases c with
      | nil => simp [listLtb] at hcb
      | cons z zs =>
        rw [listLtb] at hba hcb ⊢
        by_cases h1 : y.toNat < x.toNat
        · rw [if_pos h1] at hba
          cases hba
        · rw [if_neg h1] at hba
          by_cases h2 : z.toNat < y.toNat
          · rw [if_pos h2] at hcb
            cases hcb
          · rw [if_neg h2] at hcb
            rw [if_neg (by omega : ¬ z.toNat < x.toNat)]
            by_cases h3 : x.toNat < z.toNat
            · rw [if_pos h3]
            · rw [if_neg h3]
              by_cases h4 : x.toNat < y.toNat
              · omega
              · rw [if_neg h4] at hba
                by_cases h5 : y.toNat < z.toNat
                · omega
                · rw [if_neg h5] at hcb
                  exact ih ys zs hba hcb

/-- Incomparable lists are equal. -/
theorem listLtb_eq_of_not (a : List Char) : ∀ (b : List Char),
    listLtb a b = false → listLtb b a = false → a = b := by
  induction a with
  | nil =>
    intro b hab _
    cases b with
    | nil => rfl
    | cons y ys => simp [listLtb] at hab
  | cons x xs ih =>
    intro b hab hba
    cases b with
    | nil => simp [listLtb] at hba
    | cons y ys =>
      rw [listLtb] at hab hba
      by_cases h1 : x.toNat < y.toNat
      · rw [if_pos h1] at hab
        cases hab
      · by_cases h2 : y.toNat < x.toNat
        · rw [if_pos h2] at hba
          cases hba
        · rw [if_neg h1, if_neg h2] at hab
          rw [if_neg h2, if_neg h1] at hba
          have hx : x = y := Char.eq_of_val_eq (by
            have : x.toNat = y.toNat := by omega
            exact UInt32.toNat.inj this)
          rw [hx, ih ys hab hba]

/-- Comparison `strLeb` is total. -/
theorem strLeb_total (x y : String) (h : ¬ strLeb x y = true) : strLeb y x = true := by
  rw [strLeb, strLtb] at h ⊢
  rcases Bool.eq_false_or_eq_true (listLtb y.data x.data) with h1 | h1
  · rw [listLtb_asymm _ _ h1]
    rfl
  · exact absurd (by rw [h1]; rfl) h

/-- Comparison `strLeb` is transitive. -/
theorem strLeb_trans {x y z : String} (hxy : strLeb x y = true)
    (hyz : strLeb y z = true) : strLeb x z = true := by
  rw [strLeb, strLtb, Bool.not_eq_true'] at hxy hyz ⊢
  exact listLtb_le_trans x.data y.data z.data hxy hyz

/-- Comparison `strLeb` plus distinctness gives strict `strLtb`. -/
theorem strLtb_of_leb_ne {x y : String} (hle : strLeb x y = true) (hne : x ≠ y) :
    strLtb x y = true := by
  rw [strLeb, Bool.not_eq_true'] at hle
  rcases Bool.eq_false_or_eq_true (strLtb x y) with h1 | h1
  · exact h1
  · rw [strLtb] at h1 hle
    have := listLtb_eq_of_not x.data y.data h1 hle
    exact absurd (String.toList_inj.mp this) hne

/-- Insertion `insAsc` adds its element and keeps the rest. -/
theorem mem_insAsc (a x : String) (l : List String) :
    a ∈ insAsc x l ↔ a = x ∨ a ∈ l := by
  induction l with
  | nil => simp [insAsc]
  | cons y ys ih =>
    rw [insAsc]
    by_cases h : strLeb x y = true
    · rw [if_pos h]
      simp [or_comm, or_left_comm]
    · rw [if_neg h]
      simp only [List.mem_cons, ih]
      tauto

/-- Insertion `insAsc` permutes consing. -/
theorem insAsc_perm (x : String) (l : List String) : (insAsc x l).Perm (x :: l) := by
  induction l with
  | nil => exact List.Perm.refl _
  | cons y ys ih =>
    rw [insAsc]
    by_cases h : strLeb x y = true
    · rw [if_pos h]
    · rw [if_neg h]
      exact (ih.cons y).trans (List.Perm.swap x y ys)

/-- Sorting `sortAsc` permutes its input. -/
theorem sortAsc_perm (l : List String) : (sortAsc l).Perm l := by
  induction l with
  | nil => exact List.Perm.refl _
  | cons x xs ih => exact (insAsc_perm x (sortAsc xs)).trans (ih.cons x)

/-- Inserting into a `strLeb`-sorted list keeps it sorted. -/
theorem pairwise_insAsc (x : String) (l : List String)
    (hl : l.Pairwise (fun a b => strLeb a b = true)) :
    (insAsc x l).Pairwise (fun a b => strLeb a b = true) := by
  induction l with
  | nil => simp [insAsc]
  | cons y ys ih =>
    rw [insAsc]
    obtain ⟨hy, hys⟩ := List.pairwise_cons.mp hl
    by_cases h : strLeb x y = true
    · rw [if_pos h]
      refine List.pairwise_cons.mpr ⟨?_, hl⟩
      intro b hb
      rcases List.mem_cons.mp hb with rfl | hb2
      · exact h
      · exact strLeb_trans h (hy b hb2)
    · rw [if_neg h]
      refine List.pairwise_cons.mpr ⟨?_, ih hys⟩
      intro b hb
      rcases (mem_insAsc b x ys).mp hb with hbx | hb2
      · rw [hbx]
        exact strLeb_total x y h
      · exact hy b hb2

/-- Sorting `sortAsc` orders ascending in Python string order. -/
theorem sortAsc_sorted (l : List String) :
    (sortAsc l).Pairwise (fun a b => strLeb a b = true) := by
  induction l with
  | nil => simp [sortAsc]
  | cons x xs ih => exact pairwise_insAsc x _ ih

/-- A `strLeb`-sorted list without duplicates is strictly sorted. -/
theorem pairwise_strict_of_leb_nodup (l : List String)
    (hle : l.Pairwise (fun a b => strLeb a b = true)) (hnd : l.Nodup) :
    l.Pairwise (fun a b => strLtb a b = true) := by
  induction l with
  | nil => exact List.Pairwise.nil
  | cons x xs ih =>
    obtain ⟨h1, h2⟩ := List.pairwise_cons.mp hle
    obtain ⟨h3, h4⟩ := List.nodup_cons.mp hnd
    refine List.pairwise_cons.mpr ⟨?_, ih h2 h4⟩
    intro b hb
    exact strLtb_of_leb_ne (h1 b hb) (fun he => h3 (he ▸ hb))

/-- C10: `store_in_nosql` builds exactly one document per distinct diet
type (their diet types are duplicate-free and are exactly the input's
diet types); each `_id` is the lower-cased, spaces-to-underscores form of
the diet type; and the documents appear in strictly ascending diet-type
order — the sorted group-key order of the groupby — so the output order
is deterministic for a given record set. -/
theorem documents_spec (rs : List Record) (now : Nat) :
    ((store_documents now (calculate_averages rs) rs).map (fun doc => doc.diet_type)
      = sortedKeys rs) ∧
    ((store_documents now (calculate_averages rs) rs).map
      (fun doc => doc.diet_type)).Nodup ∧
    (∀ s, s ∈ (store_documents now (calculate_averages rs) rs).map
        (fun doc => doc.diet_type)
      ↔ s ∈ rs.map (fun r => r.diet_type)) ∧
    ((store_documents now (calculate_averages rs) rs).map
      (fun doc => doc.diet_type)).Pairwise (fun a b => strLtb a b = true) ∧
    (∀ doc ∈ store_documents now (calculate_averages rs) rs,
      doc._id = doc_id doc.diet_type) := by
  have hmap : (store_documents now (calculate_averages rs) rs).map
      (fun doc => doc.diet_type) = sortedKeys rs := by
    simp only [store_documents, calculate_averages, List.map_map]
    exact (List.map_congr_left fun d _ => rfl).trans (List.map_id _)
  have hnd : (sortedKeys rs).Nodup := by
    show (sortAsc (pdUnique (rs.map (fun r => r.diet_type)))).Nodup
    exact ((sortAsc_perm (pdUnique (rs.map (fun r => r.diet_type)))).nodup_iff).mpr
      (pdUnique_nodup _)
  refine ⟨hmap, ?_, ?_, ?_, ?_⟩
  · rw [hmap]
    exact hnd
  · intro s
    rw [hmap, sortedKeys,
      (sortAsc_perm (pdUnique (rs.map (fun r => r.diet_type)))).mem_iff,
      mem_pdUnique]
  · rw [hmap]
    exact pairwise_strict_of_leb_nodup _ (sortAsc_sorted _) hnd
  · intro doc hdoc
    obtain ⟨p, _hp, rfl⟩ := List.mem_map.mp hdoc
    rfl

/-- C10, witnessed: the `paleo` document of the scenario set carries the
id derived from its diet type. -/
theorem documents_spec_witness : docPaleoEx._id = doc_id docPaleoEx.diet_type :=
  (documents_spec rsEx 7).2.2.2.2 docPaleoEx
    (List.mem_map_of_mem _
      (List.mem_map_of_mem _ (by decide : "paleo" ∈ sortedKeys rsEx)))

/-- Insertion `insDesc` adds its element and keeps the rest. -/
theorem mem_insDesc (a x : String × Nat) (l : List (String × Nat)) :
    a ∈ insDesc x l ↔ a = x ∨ a ∈ l := by
  induction l with
  | nil => simp [insDesc]
  | cons y ys ih =>
    rw [insDesc]
    by_cases h : y.2 ≤ x.2
    · rw [if_pos h]
      simp only [List.mem_cons]
    · rw [if_neg h]
      simp only [List.mem_cons, ih]
      tauto

/-- Insertion `insDesc` permutes consing. -/
theorem insDesc_perm (x : String × Nat) (l : List (String × Nat)) :
    (insDesc x l).Perm (x :: l) := by
  induction l with
  | nil => exact List.Perm.refl _
  | cons y ys ih =>
    rw [insDesc]
    by_cases h : y.2 ≤ x.2
    · rw [if_pos h]
    · rw [if_neg h]
      exact (ih.cons y).trans (List.Perm.swap x y ys)

/-- Sorting `sortDesc` permutes its input. -/
theorem sortDesc_perm (l : List (String × Nat)) : (sortDesc l).Perm l := by
  induction l with
  | nil => exact List.Perm.refl _
  | cons x xs ih => exact (insDesc_perm x (sortDesc xs)).trans (ih.cons x)

/-- Inserting into a count-descending list keeps it descending. -/
theorem pairwise_insDesc (x : String × Nat) (l : List (String × Nat))
    (hl : l.Pairwise (fun a b => b.2 ≤ a.2)) :
    (insDesc x l).Pairwise (fun a b => b.2 ≤ a.2) := by
  induction l with
  | nil => simp [insDesc]
  | cons y ys ih =>
    rw [insDesc]
    obtain ⟨hy, hys⟩ := List.pairwise_cons.mp hl
    by_cases h : y.2 ≤ x.2
    · rw [if_pos h]
      refine List.pairwise_cons.mpr ⟨?_, hl⟩
      intro b hb
      rcases List.mem_cons.mp hb with hbx | hb2
      · rw [hbx]
        exact h
      · exact le_trans (hy b hb2) h
    · rw [if_neg h]
      refine List.pairwise_cons.mpr ⟨?_, ih hys⟩
      intro b hb
      rcases (mem_insDesc b x ys).mp hb with hbx | hb2
      · rw [hbx]
        omega
      · exact hy b hb2

/-- Sorting `sortDesc` orders descending by count. -/
theorem sortDesc_sorted (l : List (String × Nat)) :
    (sortDesc l).Pairwise (fun a b => b.2 ≤ a.2) := by
  induction l with
  | nil => simp [sortDesc]
  | cons x xs ih => exact pairwise_insDesc x _ ih

/-- Filtering one count value through `insDesc` prepends the inserted
pair when it has that count: every pair it passes has strictly greater
count. -/
theorem filter_insDesc (x : String × Nat) (l : List (String × Nat)) (n : Nat) :
    (insDesc x l).filter (fun p => p.2 = n)
      = if x.2 = n then x :: l.filter (fun p => p.2 = n)
        else l.filter (fun p => p.2 = n) := by
  induction l with
  | nil =>
    by_cases h : x.2 = n <;> simp [insDesc, h]
  | cons y ys ih =>
    rw [insDesc]
    by_cases h : y.2 ≤ x.2
    · rw [if_pos h]
      by_cases hx : x.2 = n <;> simp [List.filter_cons, hx]
    · rw [if_neg h]
      rw [List.filter_cons, ih]
      by_cases hy : y.2 = n
      · have hx : ¬ x.2 = n := fun hxx => h (by omega)
        simp [hy, hx, List.filter_cons]
      · by_cases hx : x.2 = n <;> simp [hy, hx, List.filter_cons]

/-- Sorting `sortDesc` is stable: the pairs of one fixed count keep their input
order. -/
theorem filter_sortDesc (l : List (String × Nat)) (n : Nat) :
    (sortDesc l).filter (fun p => p.2 = n) = l.filter (fun p => p.2 = n) := by
  induction l with
  | nil => rfl
  | cons x xs ih =>
    rw [sortDesc, filter_insDesc, ih, List.filter_cons]
    by_cases hx : x.2 = n <;> simp [hx]

/-- The sum of a prefix of a list of naturals is at most the total. -/
theorem sum_take_le (l : List Nat) (k : Nat) : (l.take k).sum ≤ l.sum := by
  conv_rhs => rw [← List.take_append_drop k l]
  rw [List.sum_append]
  exact Nat.le_add_right _ _

/-- The counts summed over all of `value_counts` give the list length. -/
theorem value_counts_total (cs : List String) :
    ((value_counts cs).map (fun p => p.2)).sum = cs.length := by
  rw [value_counts]
  have hperm :=
    (sortDesc_perm ((pdUnique cs).map (fun c => (c, cs.count c)))).map (fun p => p.2)
  rw [hperm.sum_eq, List.map_map]
  exact sum_count_pdUnique cs

/-- The facts shared by both top-`k` cuisine rankings. -/
theorem topk_spec (cs : List String) (k : Nat) :
    ((value_counts cs).take k).Pairwise (fun a b => b.2 ≤ a.2) ∧
    ((value_counts cs).take k).length ≤ k ∧
    (∀ p ∈ (value_counts cs).take k, p.1 ∈ cs ∧ p.2 = cs.count p.1) ∧
    (((value_counts cs).take k).map (fun p => p.2)).sum ≤ cs.length := by
  refine ⟨?_, ?_, ?_, ?_⟩
  · exact List.Pairwise.sublist (List.take_sublist k _) (sortDesc_sorted _)
  · exact List.length_take_le k _
  · intro p hp
    have hp2 : p ∈ value_counts cs := List.take_subset _ _ hp
    have hp3 : p ∈ (pdUnique cs).map (fun c => (c, cs.count c)) :=
      (sortDesc_perm _).mem_iff.mp hp2
    obtain ⟨c, hc, rfl⟩ := List.mem_map.mp hp3
    exact ⟨(mem_pdUnique c cs).mp hc, rfl⟩
  · calc (((value_counts cs).take k).map (fun p => p.2)).sum
        = (((value_counts cs).map (fun p => p.2)).take k).sum := by rw [List.map_take]
      _ ≤ ((value_counts cs).map (fun p => p.2)).sum := sum_take_le _ _
      _ = cs.length := value_counts_total cs

/-- C5: for every diet-type group, `top_cuisines` (detailed statistics)
and `cuisines` (document) are ordered by non-increasing count with
equal-count entries kept in first-seen order (filtering the ranking to
one count value yields the first-seen counts list so filtered); they hold
at most 3 resp. 5 entries; every listed cuisine occurs among the group's
records with its exact occurrence count; and the listed counts sum to at
most the group's record count. -/
theorem top_cuisines_spec (rs : List Record) (d : String) (stats : DietStats)
    (hs : (d, stats) ∈ detailed_stats rs) (now : Nat) (doc : Document)
    (hd : doc ∈ store_documents now (calculate_averages rs) rs)
    (hdoc : doc.diet_type = d) :
    (stats.top_cuisines.Pairwise (fun a b => b.2 ≤ a.2) ∧
      stats.top_cuisines.length ≤ 3 ∧
      (∀ p ∈ stats.top_cuisines,
        p.1 ∈ (groupOf rs d).map (fun r => r.cuisine_type) ∧
        p.2 = ((groupOf rs d).map (fun r => r.cuisine_type)).count p.1) ∧
      (stats.top_cuisines.map (fun p => p.2)).sum ≤ stats.count) ∧
    (doc.cuisines.Pairwise (fun a b => b.2 ≤ a.2) ∧
      doc.cuisines.length ≤ 5 ∧
      (∀ p ∈ doc.cuisines,
        p.1 ∈ (groupOf rs d).map (fun r => r.cuisine_type) ∧
        p.2 = ((groupOf rs d).map (fun r => r.cuisine_type)).count p.1) ∧
      (doc.cuisines.map (fun p => p.2)).sum ≤ doc.recipe_count) ∧
    (∀ n, (value_counts ((groupOf rs d).map (fun r => r.cuisine_type))).filter
        (fun p => p.2 = n)
      = ((pdUnique ((groupOf rs d).map (fun r => r.cuisine_type))).map
          (fun c => (c, ((groupOf rs d).map (fun r => r.cuisine_type)).count c))).filter
          (fun p => p.2 = n)) := by
  obtain ⟨d1, _hd1, heq1⟩ := List.mem_map.mp hs
  injection heq1 with he1 he2
  subst he1
  obtain ⟨p, _hp, rfl⟩ := List.mem_map.mp hd
  have hp1 : p.1 = d1 := hdoc
  rw [← he2, hp1]
  refine ⟨?_, ?_, fun n => filter_sortDesc _ n⟩
  · have h := topk_spec ((groupOf rs d1).map (fun r => r.cuisine_type)) 3
    refine ⟨h.1, h.2.1, h.2.2.1, ?_⟩
    have h4 := h.2.2.2
    rwa [List.length_map] at h4
  · have h := topk_spec ((groupOf rs d1).map (fun r => r.cuisine_type)) 5
    refine ⟨h.1, h.2.1, h.2.2.1, ?_⟩
    have h4 := h.2.2.2
    rwa [List.length_map] at h4

/-- C5, witnessed on the scenario set's `paleo` group. -/
theorem top_cuisines_spec_witness : statsPaleoEx.top_cuisines.length ≤ 3 :=
  ((top_cuisines_spec rsEx "paleo" statsPaleoEx
    (List.mem_map_of_mem _
      (by decide : "paleo" ∈ pdUnique (rsEx.map (fun r => r.diet_type))))
    7 docPaleoEx
    (List.mem_map_of_mem _
      (List.mem_map_of_mem _ (by decide : "paleo" ∈ sortedKeys rsEx)))
    rfl).1).2.1

end Diets
